import Mathlib

/-!
# Verification of the `harness` log-colorizer core

Shallow embedding of `src/harness.py`: the configuration loader
(`set_configuration`), the ANSI color encoder (`colorize`), the stdout line
classifier (`log_stdout`), the stderr reddener (`log_stderr`) and the process
supervisor (`main`).  Python strings are modelled as `List Char`; the I/O layer
(file reading, the child process' pipes) is modelled by passing the observed
contents explicitly; Python exceptions are modelled with `Except`.
-/

set_option autoImplicit false

namespace Harness

/-- Python strings, modelled as lists of characters. -/
abbrev Str := List Char

/-- Convenience conversion from Lean string literals to `Str`. -/
def str (s : String) : Str := s.toList

/-! ## Python string primitives

These model the CPython `str` methods used by `harness.py` (`strip`, `split`
on a one-character separator, `lower`) and `int(...)` parsing, restricted to
ASCII text (the program only ever handles ASCII configuration syntax and ANSI
escapes; full Unicode case folding and Unicode whitespace are out of scope of
this model). -/

/-- ASCII whitespace, as recognised by Python's `str.strip()`. -/
def pyIsSpace (c : Char) : Bool :=
  c == ' ' || c == '\t' || c == '\n' || c == '\x0d' || c == '\x0b' || c == '\x0c'

/-- `s.strip()`: remove leading and trailing whitespace. -/
def pyStrip (s : Str) : Str :=
  ((s.dropWhile pyIsSpace).reverse.dropWhile pyIsSpace).reverse

/-- `s.split(sep)` for a one-character separator: split on every occurrence.
`pySplit sep s` always returns a non-empty list, and `pySplit sep [] = [[]]`,
exactly like Python's `"".split(sep) == [""]`. -/
def pySplit (sep : Char) : Str → List Str
  | [] => [[]]
  | c :: cs =>
    if c == sep then [] :: pySplit sep cs
    else
      match pySplit sep cs with
      | [] => [[c]]
      | h :: t => (c :: h) :: t

/-- `s.lower()` (ASCII). -/
def pyLower (s : Str) : Str := s.map Char.toLower

/-- Tail of a Python integer literal body: digits with single underscores
allowed between digits (`int("1_0")` parses, `int("1__0")` and `int("1_")`
do not). -/
def pyDigitsTail : Str → Bool
  | [] => true
  | '_' :: c :: cs => c.isDigit && pyDigitsTail cs
  | '_' :: [] => false
  | c :: cs => c.isDigit && pyDigitsTail cs

/-- Whether `int(s)` succeeds on an already-stripped string: an optional sign
followed by a non-empty digit sequence (with Python's underscore rule). -/
def pyIntParses : Str → Bool
  | '+' :: c :: cs => c.isDigit && pyDigitsTail cs
  | '-' :: c :: cs => c.isDigit && pyDigitsTail cs
  | c :: cs => c.isDigit && pyDigitsTail cs
  | [] => false

/-! ## Data model (`Mode`, `Style`, `Arguments`, `Configuration`) -/

/-- `class Mode(Enum)`. -/
inductive Mode
  | LINE
  | WORD
deriving DecidableEq, Repr

/-- `class Style(Enum)`. -/
inductive Style
  | Bit4
  | Bit8
  | Bit24
deriving DecidableEq, Repr

/-- The fields of `@dataclass Arguments` consumed by the colorization core.
The `command` and `file` fields are produced by the excluded CLI collaborator
(`set_arguments`) and are passed to the supervisor model separately. -/
structure Arguments where
  ignore : Bool
  mode : Mode
  style : Style
deriving DecidableEq, Repr

/-- `@dataclass Configuration`.  The initial value in `set_configuration` is
`Configuration([], [], 0, False)`; the integer `0` placeholder for
`baseColor` is modelled as the string `"0"` (it is only ever read when
`hasBase` is true, at which point it has been overwritten by a string). -/
structure Configuration where
  keywords : List Str
  colors : List Str
  baseColor : Str
  hasBase : Bool
deriving DecidableEq, Repr

/-- Python exceptions raised by the embedded code. -/
inductive PyErr
  | configError (msg : Str)
  | regexError (msg : Str)
  | valueError (msg : Str)
  | indexError (msg : Str)
deriving DecidableEq, Repr

/-- The message printed for an exception by `print(e)`. -/
def errText : PyErr → Str
  | .configError m => m
  | .regexError m => m
  | .valueError m => m
  | .indexError m => m

/-! ## ANSI constants and `colorize` -/

/-- `ESC = "\x1b"`. -/
def ESC : Char := '\x1b'

/-- `CSI = f"{ESC}["`. -/
def CSI : Str := [ESC, '[']

/-- `RST_SUFFIX = f"{CSI}0m"`. -/
def RST_SUFFIX : Str := CSI ++ ['0', 'm']

/-- `colorize(text, color, style)`.  For `Style.Bit24` the Python code runs
`r, g, b = color.split(",")`, which raises `ValueError` unless the split has
exactly three parts. -/
def colorize (text color : Str) (style : Style) : Except PyErr Str :=
  match style with
  | .Bit4 => .ok (CSI ++ color ++ ['m'] ++ text ++ RST_SUFFIX)
  | .Bit8 => .ok (CSI ++ str "38;5;" ++ color ++ ['m'] ++ text ++ RST_SUFFIX)
  | .Bit24 =>
    match pySplit ',' color with
    | [r, g, b] =>
      .ok (CSI ++ str "38;2;" ++ r ++ [';'] ++ g ++ [';'] ++ b ++ ['m']
           ++ text ++ RST_SUFFIX)
    | _ => .error (.valueError (str "values to unpack in color.split"))

/-! ## Model of the `re` module

`harness.py` treats every configured keyword as a Python regular expression
(`re.compile`, `re.search`, `re.sub`).  The full `re` engine is far outside a
shallow embedding, so this model covers the fragment the program's
configuration language actually exercises: literal characters, grouping
parentheses (which only affect capture groups, not which texts match, so a
parsed pattern denotes the literal string of its non-parenthesis characters),
and parenthesis-balance errors.  Patterns using any other metacharacter
(`. ^ $ * + ? { } [ ] \ |`) are outside the model and are rejected at compile
time; theorems about valid patterns therefore quantify over patterns this
model accepts.  Matching and substitution follow Python semantics for literal
patterns: `re.search` finds the pattern anywhere in the line, `re.sub`
replaces every leftmost non-overlapping occurrence (for the empty pattern, at
every position), and `re.IGNORECASE` compares characters lowercased.

`re.sub` also processes its *replacement* string as a template before
scanning: backslash escapes in it are interpreted (group references, control
escapes such as `\n`, errors such as `invalid group reference` and
`bad escape`).  This matters to the program because a 24-bit color component
is never validated by the loader and is spliced into the replacement, so a
color like `\1,2,3` makes `re.sub` raise.  The model (`parseTemplate`)
is faithful for templates without backslashes (inserted verbatim), for the
single control escapes and unknown non-letter escapes, and for single-digit
group references whose index exceeds the pattern's group count (the
`invalid group reference` error).  Multi-digit references, `\g` references
and the *expansion* of a valid group reference are outside the modelled
fragment and are mapped to a distinguishable error; no theorem below relies
on those cases. -/

/-- Metacharacters outside the modelled fragment of `re`. -/
def isRegexMeta (c : Char) : Bool :=
  c == '.' || c == '^' || c == '$' || c == '*' || c == '+' || c == '?' ||
  c == '{' || c == '}' || c == '[' || c == ']' || c == '\\' || c == '|'

/-- A character that parses as itself (not a metacharacter, not a
parenthesis). -/
def isLitChar (c : Char) : Bool :=
  !(isRegexMeta c || c == '(' || c == ')')

/-- Pattern compilation with a parenthesis-depth counter.  A pattern with an
unclosed `(` fails like CPython's `missing ), unterminated subpattern`; a
stray `)` fails like `unbalanced parenthesis`. -/
def reParseGo : Str → Nat → Except PyErr Str
  | [], d =>
    if d = 0 then .ok []
    else .error (.regexError (str "missing ), unterminated subpattern"))
  | c :: cs, d =>
    if c = '(' then reParseGo cs (d + 1)
    else if c = ')' then
      if d = 0 then .error (.regexError (str "unbalanced parenthesis"))
      else reParseGo cs (d - 1)
    else if isRegexMeta c then
      .error (.regexError (str "metacharacter outside the modelled re fragment"))
    else
      match reParseGo cs d with
      | .ok ls => .ok (c :: ls)
      | .error e => .error e

/-- `re.compile(key)` in the modelled fragment: the compiled pattern is the
literal character list the pattern denotes. -/
def re_compile (key : Str) : Except PyErr Str :=
  reParseGo key 0

/-- Character comparison, case-insensitively when `ign` is set
(`re.IGNORECASE`). -/
def chEq (ign : Bool) (a b : Char) : Bool :=
  if ign then a.toLower == b.toLower else a == b

/-- Whether the literal pattern `pat` matches at the head of `s`. -/
def litHeadMatch (ign : Bool) : Str → Str → Bool
  | [], _ => true
  | _ :: _, [] => false
  | a :: as, b :: bs => chEq ign a b && litHeadMatch ign as bs

/-- `re.search(pat, s) is not None` for a literal pattern: match anywhere
(the empty pattern matches every string). -/
def containsCI (ign : Bool) (pat : Str) : Str → Bool
  | [] => pat.isEmpty
  | b :: bs => litHeadMatch ign pat (b :: bs) || containsCI ign pat bs

/-- `re.sub` of the empty pattern: the replacement is inserted at every
position (`re.sub("", "-", "ab") == "-a-b-"`). -/
def subEmpty (rep : Str) : Str → Str
  | [] => rep
  | c :: cs => rep ++ c :: subEmpty rep cs

/-- `re.sub` of a non-empty literal pattern `p :: ps`: replace every leftmost
non-overlapping occurrence with `rep`.  Recursion is on a fuel bounded by the
string length (each step consumes at least one character and exactly one unit
of fuel, so the fuel never runs out when started at the length). -/
def subGoFuel (ign : Bool) (p : Char) (ps rep : Str) : Nat → Str → Str
  | _, [] => []
  | 0, s => s
  | fuel + 1, c :: cs =>
    if litHeadMatch ign (p :: ps) (c :: cs) then
      rep ++ subGoFuel ign p ps rep fuel (List.drop ps.length cs)
    else
      c :: subGoFuel ign p ps rep fuel cs

/-- Entry point of the non-empty-pattern substitution, with the fuel set to
the subject length. -/
def subGo (ign : Bool) (p : Char) (ps rep s : Str) : Str :=
  subGoFuel ign p ps rep s.length s

/-- `re.sub(pat, rep, s)` for a literal pattern once the replacement template
has already been processed into the literal string `rep` (see
`parseTemplate` for the template processing itself). -/
def reSubLit (ign : Bool) (pat rep s : Str) : Str :=
  match pat with
  | [] => subEmpty rep s
  | p :: ps => subGo ign p ps rep s

/-- The number of capturing groups of a compiled pattern in the modelled
fragment: every `(` opens one (meaningful only for patterns `re_compile`
accepts, whose parentheses are balanced). -/
def reGroupCount (key : Str) : Nat := key.count '('

/-- The template control escapes `re.sub` decodes in a replacement string
(`\a \b \f \n \r \t \v \\`). -/
def templEscape (c : Char) : Option Char :=
  if c = 'a' then some '\x07'
  else if c = 'b' then some '\x08'
  else if c = 'f' then some '\x0c'
  else if c = 'n' then some '\n'
  else if c = 'r' then some '\x0d'
  else if c = 't' then some '\t'
  else if c = 'v' then some '\x0b'
  else if c = '\\' then some '\\'
  else none

/-- CPython's replacement-template processing (`re.sub`'s handling of its
replacement string), on the modelled fragment: characters other than `\` are
literal; `\` followed by a control-escape letter decodes; `\` followed by
another ASCII letter raises `bad escape`; `\` followed by a non-letter,
non-digit character is kept as the two characters; `\` at the end raises;
`\0` is the NUL octal escape; `\N` for a single digit `N ≥ 1` not followed by
another digit is a group reference, raising `invalid group reference` when
`N` exceeds the pattern's group count.  Multi-digit references, `\g`
references and valid group-reference expansion are outside the fragment and
mapped to a distinguishable error. -/
def parseTemplGoFuel (groups : Nat) : Nat → Str → Except PyErr Str
  | _, [] => .ok []
  | 0, _ :: _ => .error (.regexError (str "template fuel exhausted"))
  | fuel + 1, c :: cs =>
    if c = '\\' then
      match cs with
      | [] => .error (.regexError (str "bad escape (end of pattern)"))
      | c2 :: cs2 =>
        if c2.isDigit then
          if (cs2.head?.map Char.isDigit).getD false then
            .error (.regexError
              (str "multi-digit template reference outside the modelled re fragment"))
          else if c2 = '0' then
            match parseTemplGoFuel groups fuel cs2 with
            | .ok out => .ok ('\x00' :: out)
            | .error e => .error e
          else if c2.toNat - '0'.toNat ≤ groups then
            .error (.regexError
              (str "template group expansion outside the modelled re fragment"))
          else
            .error (.regexError (str "invalid group reference"))
        else if c2 = 'g' then
          .error (.regexError
            (str "named template reference outside the modelled re fragment"))
        else
          match templEscape c2 with
          | some ch =>
            match parseTemplGoFuel groups fuel cs2 with
            | .ok out => .ok (ch :: out)
            | .error e => .error e
          | none =>
            if c2.isAlpha then .error (.regexError (str "bad escape"))
            else
              match parseTemplGoFuel groups fuel cs2 with
              | .ok out => .ok ('\\' :: c2 :: out)
              | .error e => .error e
    else
      match parseTemplGoFuel groups fuel cs with
      | .ok out => .ok (c :: out)
      | .error e => .error e

/-- Template processing of a whole replacement string against a pattern with
`groups` capturing groups.  The fuel is bounded by the template length (every
step consumes at least one character and exactly one unit of fuel, so the
fuel-exhausted arm is unreachable from here). -/
def parseTemplate (groups : Nat) (template : Str) : Except PyErr Str :=
  parseTemplGoFuel groups template.length template

/-! ## Configuration loader (`set_configuration`) -/

/-- Validation of a color value for the active style, exactly as in
`set_configuration`: for `Bit24` only the number of comma-separated parts is
checked (`len(color.split(",")) == 3`); for `Bit4`/`Bit8` the value must
parse as an integer. -/
def checkColor (style : Style) (color keyword : Str) : Except PyErr Unit :=
  match style with
  | .Bit24 =>
    if (pySplit ',' color).length ≠ 3 then
      .error (.configError
        (str "Invalid RGB color format for " ++ keyword ++ ['='] ++ color))
    else .ok ()
  | _ =>
    if pyIntParses color then .ok ()
    else .error (.configError (str "Color must be an integer"))

/-- The `for line in content:` loop of `set_configuration`, carrying the
`Configuration` accumulator. -/
def setConfLoop (style : Style) : List Str → Configuration → Except PyErr Configuration
  | [], conf => .ok conf
  | raw :: rest, conf =>
    let line := pyStrip raw
    match line with
    | [] => setConfLoop style rest conf
    | c :: _ =>
      if c == '#' then setConfLoop style rest conf
      else
        match pySplit '=' line with
        | [_] =>
          .error (.configError
            (str "Configuration must be in the following format [KEY]=[COLOR]"))
        | [] =>
          .error (.configError
            (str "Configuration must be in the following format [KEY]=[COLOR]"))
        | k :: v :: _ =>
          let keyword := pyStrip k
          let color := pyStrip v
          match checkColor style color keyword with
          | .error e => .error e
          | .ok _ =>
            if pyLower keyword == str "base" then
              setConfLoop style rest
                { conf with hasBase := true, baseColor := color }
            else
              setConfLoop style rest
                { conf with keywords := conf.keywords ++ [keyword],
                            colors := conf.colors ++ [color] }

/-- `set_configuration(file, style)`.  The file system is modelled by the
observed result of `open(file).readlines()`: `none` when `open` raises
(`OSError`, reported by the `@handled` decorator), `some content` otherwise. -/
def set_configuration (file : Option (List Str)) (style : Style) :
    Except PyErr Configuration :=
  match file with
  | none => .error (.configError (str "No such file or directory"))
  | some content => setConfLoop style content ⟨[], [], str "0", false⟩

/-! ## Line classification (`handle_word_mode`, `log_stdout`) -/

/-- `handle_word_mode(line, key, color, style, ignore)`:
`replace = colorize(key, color, style)` followed by
`re.sub(key, replace, line)` (with `re.IGNORECASE` iff `ignore`).  Note the
replacement is the colorized *key* text, and `re.sub` re-compiles the raw
`key` pattern and then processes the replacement as a template (both before
scanning), so a backslash smuggled into the replacement by a 24-bit color
component can raise here. -/
def handle_word_mode (line key color : Str) (style : Style) (ignore : Bool) :
    Except PyErr Str :=
  match colorize key color style with
  | .error e => .error e
  | .ok replace =>
    match re_compile key with
    | .error e => .error e
    | .ok pat =>
      match parseTemplate (reGroupCount key) replace with
      | .error e => .error e
      | .ok filtered => .ok (reSubLit ignore pat filtered line)

/-- The `for index, key in enumerate(configuration.keywords):` loop inside
`log_stdout`, for one input line.  `ks` is the remaining keyword suffix and
`index` the current `enumerate` index; `line` is rewritten in place by word
mode; `skip` and `output` are the two flags.  The result is the list of
strings printed for this line (in print order); exceptions (pattern
compilation, `colors[index]` lookup, `colorize`) abort the line.  After the
loop (or after a `break` in line mode) the function mirrors
`if output: print(line)`, `if skip: continue`, then the base-color /
passthrough prints. -/
def goKeys (conf : Configuration) (args : Arguments) :
    List Str → Nat → Str → Bool → Bool → Except PyErr (List Str)
  | [], _, line, skip, output =>
    let head := if output then [line] else []
    if skip then .ok head
    else if conf.hasBase then
      match colorize line conf.baseColor args.style with
      | .ok s => .ok (head ++ [s])
      | .error e => .error e
    else .ok (head ++ [line])
  | key :: rest, index, line, skip, output =>
    match re_compile key with
    | .error e => .error e
    | .ok pat =>
      if containsCI args.ignore pat line then
        match conf.colors[index]? with
        | none => .error (.indexError (str "list index out of range"))
        | some color =>
          match args.mode with
          | .LINE =>
            match colorize line color args.style with
            | .ok s => .ok ([s] ++ if output then [line] else [])
            | .error e => .error e
          | .WORD =>
            match handle_word_mode line key color args.style args.ignore with
            | .error e => .error e
            | .ok newline => goKeys conf args rest (index + 1) newline true true
      else goKeys conf args rest (index + 1) line skip output

/-- Processing of one stdout line by `log_stdout`: the strings printed for
that line, or the exception that escaped. -/
def log_stdout_line (conf : Configuration) (args : Arguments) (line : Str) :
    Except PyErr (List Str) :=
  goKeys conf args conf.keywords 0 line false false

/-- The whole `log_stdout(pipe, configuration, arguments)` call on the
observed stdout content: the printed strings in order, and the exception (if
any) that aborted the loop. -/
def log_stdout_run (lines : List Str) (conf : Configuration) (args : Arguments) :
    List Str × Option PyErr :=
  match lines with
  | [] => ([], none)
  | l :: rest =>
    match log_stdout_line conf args l with
    | .error e => ([], some e)
    | .ok outs =>
      let tail := log_stdout_run rest conf args
      (outs ++ tail.1, tail.2)

/-! ## `log_stderr` and `main` -/

/-- The fixed error color chosen by `log_stderr` for each style. -/
def log_stderr_red (style : Style) : Str :=
  match style with
  | .Bit24 => str "211,70,65"
  | .Bit8 => str "160"
  | .Bit4 => str "31"

/-- `log_stderr(pipe, arguments)` on the observed stderr content.  For the
three fixed red values `colorize` never raises, so the error arm is dead
code kept only to make the function total. -/
def log_stderr_run (lines : List Str) (args : Arguments) : List Str :=
  lines.map fun l =>
    match colorize l (log_stderr_red args.style) args.style with
    | .ok s => s
    | .error _ => []

/-- Observable trace of one `main()` run: everything printed by the two
logging loops (or the `@handled` error report), whether `subprocess.Popen`
was reached, whether `process.wait()` was reached, the value the `main`
function itself returns, and the interpreter's exit code. -/
structure MainTrace where
  printed : List Str
  spawned : Bool
  waited : Bool
  result : Option Int
  exitCode : Int
deriving DecidableEq, Repr

/-- `main()`.  The child process is modelled by the contents its stdout and
stderr pipes eventually deliver (`childOut`, `childErr`) and its exit status
(`childExit`); the configuration file by `file` as in `set_configuration`.
Control flow mirrors the source: a `ConfigError` is printed once by the
`@handled` decorator and the interpreter exits with code 1 before
`subprocess.Popen` runs; otherwise stdout is drained to end-of-stream through
`log_stdout`, then stderr through `log_stderr`, then `process.wait()` runs,
its value is discarded, and `main` returns `None` (interpreter exit code 0).
An exception escaping `log_stdout` is unhandled: stderr is never drained,
`wait` never runs, and the interpreter exits with code 1.  (The `SIGINT`
trap, a real-time signal path, is outside this model.) -/
def pyMain (file : Option (List Str)) (args : Arguments)
    (childOut childErr : List Str) (childExit : Int) : MainTrace :=
  match set_configuration file args.style with
  | .error e =>
    { printed := [errText e], spawned := false, waited := false,
      result := none, exitCode := 1 }
  | .ok conf =>
    match log_stdout_run childOut conf args with
    | (outs, some _) =>
      { printed := outs, spawned := true, waited := false,
        result := none, exitCode := 1 }
    | (outs, none) =>
      { printed := outs ++ log_stderr_run childErr args, spawned := true,
        waited := true, result := none, exitCode := 0 }

/-! ## Specification-side definitions

Plain-string characterizations used to state the claims; the theorems below
relate them to the embedded code. -/

/-- Whether a color value passes `set_configuration`'s validation for the
active style: for 24-bit, exactly three comma-separated parts (the parts are
*not* checked further); for 4 bit and 8 bit, an integer. -/
def colorAccepted (style : Style) (color : Str) : Bool :=
  match style with
  | .Bit24 => (pySplit ',' color).length == 3
  | _ => pyIntParses color

/-- The string `colorize` produces on an accepted color (total companion of
`colorize`; on a 24-bit color without exactly three parts it returns junk and
is never used). -/
def colorizeOk (style : Style) (color text : Str) : Str :=
  match style with
  | .Bit4 => CSI ++ color ++ ['m'] ++ text ++ RST_SUFFIX
  | .Bit8 => CSI ++ str "38;5;" ++ color ++ ['m'] ++ text ++ RST_SUFFIX
  | .Bit24 =>
    match pySplit ',' color with
    | [r, g, b] =>
      CSI ++ str "38;2;" ++ r ++ [';'] ++ g ++ [';'] ++ b ++ ['m']
        ++ text ++ RST_SUFFIX
    | _ => []

/-- Build the `Configuration` holding the given (keyword, color) rules in
order, with an optional base color. -/
def confOfRules (rules : List (Str × Str)) (base : Option Str) : Configuration :=
  { keywords := rules.map (fun r => r.1), colors := rules.map (fun r => r.2),
    baseColor := base.getD (str "0"), hasBase := base.isSome }

/-- One word-mode rewriting step, stated over plain strings: if the rule's
keyword occurs in the current line, replace every occurrence with the
colorized *keyword text* and record that a match happened. -/
def wordStep (ign : Bool) (style : Style) (st : Str × Bool × Bool)
    (r : Str × Str) : Str × Bool × Bool :=
  if containsCI ign r.1 st.1 then
    (reSubLit ign r.1 (colorizeOk style r.2 r.1) st.1, true, true)
  else st

/-- Word-mode processing as a left fold of `wordStep` over the rules, carrying
(current line, `skip` flag, `output` flag). -/
def wordFold (ign : Bool) (style : Style) (rules : List (Str × Str))
    (st : Str × Bool × Bool) : Str × Bool × Bool :=
  rules.foldl (wordStep ign style) st

/-- What `log_stdout` prints for a line once the keyword loop has finished in
state `(line, skip, output)` (stated with `colorizeOk`). -/
def emitTail (conf : Configuration) (args : Arguments)
    (st : Str × Bool × Bool) : List Str :=
  (if st.2.2 then [st.1] else []) ++
    if st.2.1 then []
    else if conf.hasBase then [colorizeOk args.style conf.baseColor st.1]
    else [st.1]

/-- The (trimmed keyword, trimmed color) pair a configuration line
contributes, `none` for blank and comment lines (and for lines the loader
rejects). -/
def entryOf (raw : Str) : Option (Str × Str) :=
  match pyStrip raw with
  | [] => none
  | c :: rest =>
    if c == '#' then none
    else
      match pySplit '=' (c :: rest) with
      | k :: v :: _ => some (pyStrip k, pyStrip v)
      | _ => none

/-- Whether an entry's trimmed key is the reserved `base` keyword
(case-insensitively). -/
def isBaseEntry (e : Str × Str) : Bool := pyLower e.1 == str "base"

/-- The non-`base` entries of a configuration file, in file order. -/
def ruleEntries (content : List Str) : List (Str × Str) :=
  (content.filterMap entryOf).filter (fun e => !isBaseEntry e)

/-- The `base` entries of a configuration file, in file order. -/
def baseEntries (content : List Str) : List (Str × Str) :=
  (content.filterMap entryOf).filter isBaseEntry

/-- Boolean success test for `Except`. -/
def isOkB {ε α : Type} : Except ε α → Bool
  | .ok _ => true
  | .error _ => false

/-! ## Helper lemmas -/

/-- On an accepted color, `colorize` succeeds and produces `colorizeOk`. -/
theorem colorize_accepted {style : Style} {color : Str}
    (h : colorAccepted style color = true) (text : Str) :
    colorize text color style = .ok (colorizeOk style color text) := by
  cases style with
  | Bit4 => rfl
  | Bit8 => rfl
  | Bit24 =>
    have h3 : (pySplit ',' color).length = 3 := by
      simpa [colorAccepted] using h
    obtain ⟨r, g, b, hl⟩ := List.length_eq_three.mp h3
    simp [colorize, colorizeOk, hl]

/-- A pattern of literal characters compiles to itself. -/
theorem re_compile_literal {k : Str} (h : ∀ c ∈ k, isLitChar c = true) :
    re_compile k = .ok k := by
  unfold re_compile
  induction k with
  | nil => rfl
  | cons c cs ih =>
    have hc := h c (List.mem_cons_self c cs)
    have hrest : ∀ x ∈ cs, isLitChar x = true := fun x hx =>
      h x (List.mem_cons_of_mem c hx)
    have hncp : ¬c = '(' := by
      intro hcp; subst hcp; simp [isLitChar] at hc
    have hncq : ¬c = ')' := by
      intro hcp; subst hcp; simp [isLitChar] at hc
    have hnm : isRegexMeta c = false := by
      simp [isLitChar] at hc; exact hc.1.1
    simp [reParseGo, hncp, hncq, hnm, ih hrest]

/-- `checkColor` succeeds exactly on accepted colors. -/
theorem checkColor_ok {style : Style} {color keyword : Str} :
    checkColor style color keyword = .ok () ↔ colorAccepted style color = true := by
  cases style with
  | Bit4 => simp [checkColor, colorAccepted]
  | Bit8 => simp [checkColor, colorAccepted]
  | Bit24 =>
    simp only [checkColor, colorAccepted]
    constructor
    · intro h
      by_cases h3 : (pySplit ',' color).length = 3 <;> simp_all
    · intro h
      simp_all

/-- Every character of every part produced by `pySplit` is a character of
the split string. -/
theorem pySplit_part_mem {sep : Char} :
    ∀ {s part : Str}, part ∈ pySplit sep s → ∀ {ch : Char}, ch ∈ part → ch ∈ s
  | [], part, hp, ch, hch => by
    simp only [pySplit, List.mem_singleton] at hp
    subst hp
    simp at hch
  | c :: cs, part, hp, ch, hch => by
    cases hc : c == sep with
    | true =>
      simp only [pySplit, hc, if_true] at hp
      rcases List.mem_cons.mp hp with rfl | hp'
      · simp at hch
      · exact List.mem_cons_of_mem _ (pySplit_part_mem hp' hch)
    | false =>
      simp only [pySplit, hc, Bool.false_eq_true, if_false] at hp
      rcases hrec : pySplit sep cs with _ | ⟨h0, t⟩
      · rw [hrec] at hp
        simp only [List.mem_singleton] at hp
        subst hp
        simp only [List.mem_singleton] at hch
        subst hch
        exact List.mem_cons_self _ _
      · rw [hrec] at hp
        rcases List.mem_cons.mp hp with rfl | hp'
        · rcases List.mem_cons.mp hch with rfl | hch'
          · exact List.mem_cons_self _ _
          · have hh0 : h0 ∈ pySplit sep cs := by
              rw [hrec]; exact List.mem_cons_self _ _
            exact List.mem_cons_of_mem _ (pySplit_part_mem hh0 hch')
        · have hpm : part ∈ pySplit sep cs := by
            rw [hrec]; exact List.mem_cons_of_mem _ hp'
          exact List.mem_cons_of_mem _ (pySplit_part_mem hpm hch)

/-- The colorized replacement the program builds contains a backslash only if
the color value or the keyword text does. -/
theorem backslash_not_in_colorizeOk {style : Style} {c k : Str}
    (hc : '\\' ∉ c) (hk : '\\' ∉ k) : '\\' ∉ colorizeOk style c k := by
  intro hmem
  cases style with
  | Bit4 =>
    simp only [colorizeOk, List.mem_append, or_assoc] at hmem
    rcases hmem with h | h | h | h | h
    · exact absurd h (by decide)
    · exact hc h
    · exact absurd h (by decide)
    · exact hk h
    · exact absurd h (by decide)
  | Bit8 =>
    simp only [colorizeOk, List.mem_append, or_assoc] at hmem
    rcases hmem with h | h | h | h | h | h
    · exact absurd h (by decide)
    · exact absurd h (by decide)
    · exact hc h
    · exact absurd h (by decide)
    · exact hk h
    · exact absurd h (by decide)
  | Bit24 =>
    rcases hsp : pySplit ',' c with _ | ⟨r, _ | ⟨g, _ | ⟨b, _ | ⟨x, xs⟩⟩⟩⟩ <;>
      simp only [colorizeOk, hsp, List.mem_append, or_assoc] at hmem
    · exact absurd hmem (by simp)
    · exact absurd hmem (by simp)
    · exact absurd hmem (by simp)
    · have hr : '\\' ∉ r := fun hm =>
        hc (pySplit_part_mem (by rw [hsp]; exact List.mem_cons_self _ _) hm)
      have hg : '\\' ∉ g := fun hm =>
        hc (pySplit_part_mem
          (by rw [hsp]; exact List.mem_cons_of_mem _ (List.mem_cons_self _ _)) hm)
      have hb : '\\' ∉ b := fun hm =>
        hc (pySplit_part_mem
          (by rw [hsp]
              exact List.mem_cons_of_mem _
                (List.mem_cons_of_mem _ (List.mem_cons_self _ _))) hm)
      rcases hmem with h | h | h | h | h | h | h | h | h | h
      · exact absurd h (by decide)
      · exact absurd h (by decide)
      · exact hr h
      · exact absurd h (by decide)
      · exact hg h
      · exact absurd h (by decide)
      · exact hb h
      · exact absurd h (by decide)
      · exact hk h
      · exact absurd h (by decide)
    · exact absurd hmem (by simp)

/-- Backslash-free template, any sufficient fuel: processed verbatim. -/
theorem parseTemplGoFuel_literal {groups : Nat} :
    ∀ (fuel : Nat) (t : Str), t.length ≤ fuel → '\\' ∉ t →
    parseTemplGoFuel groups fuel t = .ok t := by
  intro fuel
  induction fuel with
  | zero =>
    intro t hlen hnb
    cases t with
    | nil => rfl
    | cons c cs => simp at hlen
  | succ fuel ih =>
    intro t hlen hnb
    cases t with
    | nil => rfl
    | cons c cs =>
      have hcb : ¬c = '\\' := fun hcc => hnb (hcc ▸ List.mem_cons_self _ _)
      have hrest := ih cs (by simp only [List.length_cons] at hlen; omega)
        (fun hm => hnb (List.mem_cons_of_mem _ hm))
      simp [parseTemplGoFuel, hcb, hrest]

/-- A backslash-free replacement template is used verbatim. -/
theorem parseTemplate_literal {t : Str} {groups : Nat} (h : '\\' ∉ t) :
    parseTemplate groups t = .ok t :=
  parseTemplGoFuel_literal t.length t (Nat.le_refl _) h

/-- A pattern of literal characters contains no backslash. -/
theorem literal_no_backslash {k : Str}
    (h : ∀ ch ∈ k, isLitChar ch = true) : '\\' ∉ k := fun hm => by
  have := h '\\' hm
  exact absurd this (by decide)

/-- Every character of a pattern the model compiles is a non-metacharacter
(in particular no backslash). -/
theorem reParseGo_ok_no_meta :
    ∀ {k : Str} {d : Nat} {p : Str},
    reParseGo k d = .ok p → ∀ ch ∈ k, isRegexMeta ch = false
  | [], _, _, _, _, hch => by simp at hch
  | c :: cs, d, p, h, ch, hch => by
    by_cases hc1 : c = '('
    · subst hc1
      rw [show reParseGo ('(' :: cs) d = reParseGo cs (d + 1) from by
        simp [reParseGo]] at h
      rcases List.mem_cons.mp hch with rfl | hch'
      · decide
      · exact reParseGo_ok_no_meta h ch hch'
    · by_cases hc2 : c = ')'
      · subst hc2
        by_cases hd : d = 0
        · subst hd
          rw [show reParseGo (')' :: cs) 0
              = .error (.regexError (str "unbalanced parenthesis")) from by
            simp [reParseGo]] at h
          simp at h
        · rw [show reParseGo (')' :: cs) d = reParseGo cs (d - 1) from by
            simp [reParseGo, hd]] at h
          rcases List.mem_cons.mp hch with rfl | hch'
          · decide
          · exact reParseGo_ok_no_meta h ch hch'
      · by_cases hc3 : isRegexMeta c = true
        · rw [show reParseGo (c :: cs) d = .error (.regexError
              (str "metacharacter outside the modelled re fragment")) from by
            simp [reParseGo, hc1, hc2, hc3]] at h
          simp at h
        · rw [show reParseGo (c :: cs) d
              = (match reParseGo cs d with
                 | .ok ls => .ok (c :: ls)
                 | .error e => .error e) from by
            simp [reParseGo, hc1, hc2, hc3]] at h
          rcases List.mem_cons.mp hch with rfl | hch'
          · simpa using hc3
          · cases hrec : reParseGo cs d with
            | ok q => exact reParseGo_ok_no_meta hrec ch hch'
            | error e => rw [hrec] at h; simp at h

/-- A pattern the model compiles contains no backslash. -/
theorem re_compile_ok_no_backslash {k p : Str}
    (h : re_compile k = .ok p) : '\\' ∉ k := fun hm => by
  have := reParseGo_ok_no_meta h '\\' hm
  exact absurd this (by decide)

/-- Processing one keyword that compiles but does not match leaves the loop
state unchanged apart from the `enumerate` index. -/
theorem goKeys_cons_nomatch {conf : Configuration} {args : Arguments}
    {key lk : Str} {rest : List Str} {i : Nat} {line : Str} {sk out : Bool}
    (hc : re_compile key = .ok lk)
    (hm : containsCI args.ignore lk line = false) :
    goKeys conf args (key :: rest) i line sk out
      = goKeys conf args rest (i + 1) line sk out := by
  simp [goKeys, hc, hm]

/-- A block of keywords that all compile and all fail to match is skipped
wholesale. -/
theorem goKeys_skip_all {conf : Configuration} {args : Arguments} {line : Str} :
    ∀ (pre : List Str) {ks : List Str} {i : Nat} {sk out : Bool},
    (∀ k ∈ pre, ∃ lk, re_compile k = .ok lk ∧
      containsCI args.ignore lk line = false) →
    goKeys conf args (pre ++ ks) i line sk out
      = goKeys conf args ks (i + pre.length) line sk out
  | [], ks, i, sk, out, _ => by simp
  | k :: pre, ks, i, sk, out, h => by
    obtain ⟨lk, hc, hm⟩ := h k (List.mem_cons_self k pre)
    rw [List.cons_append, goKeys_cons_nomatch hc hm,
        goKeys_skip_all pre (fun x hx => h x (List.mem_cons_of_mem k hx)),
        show i + 1 + pre.length = i + (k :: pre).length from by simp; omega]

/-- C6 helper: the element at the junction position of `a ++ c :: b`. -/
theorem getElem?_append_middle {α : Type} (a b : List α) (c : α) :
    (a ++ c :: b)[a.length]? = some c := by
  rw [List.getElem?_append_right (Nat.le_refl _)]
  simp

/-- The loop state after the keyword loop: no keyword matched, flags still
down, so the base color (if any) or the raw line is printed. -/
theorem goKeys_nil_base {conf : Configuration} {args : Arguments} {i : Nat}
    {line : Str}
    (hbase : conf.hasBase = true → colorAccepted args.style conf.baseColor = true) :
    goKeys conf args [] i line false false
      = .ok (if conf.hasBase then [colorizeOk args.style conf.baseColor line]
             else [line]) := by
  cases hb : conf.hasBase with
  | true => simp [goKeys, hb, colorize_accepted (hbase hb)]
  | false => simp [goKeys, hb]

/-- C6: in line mode, for every line and every configuration, the first rule
in declared order whose pattern matches anywhere in the line determines the
rendering: the entire original line is wrapped in that rule's color prefix
and the reset suffix, scanning stops at that rule, and no later rule's color
is ever applied — the rules after the matching one (`post`) are arbitrary and
need not even compile. -/
theorem spec_c6 (pre post : List (Str × Str)) (k c : Str) (base : Option Str)
    (args : Arguments) (line lk : Str)
    (hmode : args.mode = .LINE)
    (hpre : ∀ r ∈ pre, ∃ l, re_compile r.1 = .ok l ∧
      containsCI args.ignore l line = false)
    (hk : re_compile k = .ok lk)
    (hm : containsCI args.ignore lk line = true)
    (hc : colorAccepted args.style c = true) :
    log_stdout_line (confOfRules (pre ++ (k, c) :: post) base) args line
      = .ok [colorizeOk args.style c line] := by
  unfold log_stdout_line
  have hkw : (confOfRules (pre ++ (k, c) :: post) base).keywords
      = pre.map (fun r => r.1) ++ k :: post.map (fun r => r.1) := by
    simp [confOfRules]
  have hpre' : ∀ x ∈ pre.map (fun r => r.1), ∃ l, re_compile x = .ok l ∧
      containsCI args.ignore l line = false := by
    intro x hx
    obtain ⟨r, hr, rfl⟩ := List.mem_map.mp hx
    exact hpre r hr
  rw [hkw, @goKeys_skip_all (confOfRules (pre ++ (k, c) :: post) base) args line
      (pre.map (fun r => r.1)) (k :: post.map (fun r => r.1)) 0 false false hpre']
  have hcol : (confOfRules (pre ++ (k, c) :: post) base).colors[0 +
      (pre.map (fun r => r.1)).length]? = some c := by
    have : (confOfRules (pre ++ (k, c) :: post) base).colors
        = pre.map (fun r => r.2) ++ c :: post.map (fun r => r.2) := by
      simp [confOfRules]
    rw [this, show 0 + (pre.map (fun r => r.1)).length
        = (pre.map (fun r => r.2)).length from by simp,
      getElem?_append_middle]
  simp only [List.length_map, Nat.zero_add] at hcol
  simp [goKeys, hk, hm, hcol, hmode, colorize_accepted hc]

/-- C6 witness: with rules `NOPE→31, WARN→33, (→1` in 4-bit line mode, the
line `"WARN: ERROR seen\n"` is wholly wrapped in the WARN rule's color and
the malformed pattern declared after it is never even compiled. -/
theorem spec_c6_witness :
    log_stdout_line
      (confOfRules [(str "NOPE", str "31"), (str "WARN", str "33"),
        (str "(", str "1")] none)
      ⟨false, Mode.LINE, Style.Bit4⟩ (str "WARN: ERROR seen\n")
      = .ok [colorizeOk Style.Bit4 (str "33") (str "WARN: ERROR seen\n")] :=
  spec_c6 [(str "NOPE", str "31")] [(str "(", str "1")] (str "WARN") (str "33")
    none ⟨false, Mode.LINE, Style.Bit4⟩ (str "WARN: ERROR seen\n") (str "WARN")
    rfl
    (by
      intro r hr
      simp only [List.mem_singleton] at hr
      subst hr
      exact ⟨str "NOPE", rfl, rfl⟩)
    rfl rfl rfl

/-- C7: a stdout line matched by no rule is wrapped whole in the base color
when one is configured, and otherwise emitted byte-identical (no escape
sequences inserted, the line — including any trailing newline — unchanged). -/
theorem spec_c7 (conf : Configuration) (args : Arguments) (line : Str)
    (hnm : ∀ k ∈ conf.keywords, ∃ l, re_compile k = .ok l ∧
      containsCI args.ignore l line = false)
    (hbase : conf.hasBase = true → colorAccepted args.style conf.baseColor = true) :
    log_stdout_line conf args line
      = .ok (if conf.hasBase then [colorizeOk args.style conf.baseColor line]
             else [line]) := by
  unfold log_stdout_line
  have h := @goKeys_skip_all conf args line conf.keywords [] 0 false false hnm
  rw [List.append_nil] at h
  rw [h, goKeys_nil_base hbase]

/-- C7 witness: under rules that do not match, `"plain\n"` is wrapped in the
configured base color 15; with no base color configured it passes through
byte-identical. -/
theorem spec_c7_witness :
    log_stdout_line ⟨[str "ERROR"], [str "31"], str "15", true⟩
        ⟨false, Mode.LINE, Style.Bit4⟩ (str "plain\n")
      = .ok [colorizeOk Style.Bit4 (str "15") (str "plain\n")] ∧
    log_stdout_line ⟨[str "ERROR"], [str "31"], str "0", false⟩
        ⟨false, Mode.WORD, Style.Bit4⟩ (str "plain\n")
      = .ok [str "plain\n"] := by
  constructor
  · exact spec_c7 ⟨[str "ERROR"], [str "31"], str "15", true⟩
      ⟨false, Mode.LINE, Style.Bit4⟩ (str "plain\n")
      (by
        intro k hk
        simp only [List.mem_singleton] at hk
        subst hk
        exact ⟨str "ERROR", rfl, rfl⟩)
      (fun _ => rfl)
  · exact spec_c7 ⟨[str "ERROR"], [str "31"], str "0", false⟩
      ⟨false, Mode.WORD, Style.Bit4⟩ (str "plain\n")
      (by
        intro k hk
        simp only [List.mem_singleton] at hk
        subst hk
        exact ⟨str "ERROR", rfl, rfl⟩)
      (fun h => by simp at h)

/-- On a literal keyword and an accepted, backslash-free color,
`handle_word_mode` is exactly the plain-string substitution: every occurrence
of the keyword is replaced by the colorized keyword text (the replacement
template is literal, so `re.sub`'s template processing is the identity). -/
theorem handle_word_mode_literal {k c line : Str} {style : Style} {ign : Bool}
    (hk : ∀ ch ∈ k, isLitChar ch = true)
    (hc : colorAccepted style c = true)
    (hb : '\\' ∉ c) :
    handle_word_mode line k c style ign
      = .ok (reSubLit ign k (colorizeOk style c k) line) := by
  unfold handle_word_mode
  simp only [colorize_accepted hc, re_compile_literal hk,
    parseTemplate_literal (backslash_not_in_colorizeOk hb (literal_no_backslash hk))]

/-- `wordFold` raises the `skip` and `output` flags together. -/
theorem wordFold_flags {ign : Bool} {style : Style} :
    ∀ (rules : List (Str × Str)) (st : Str × Bool × Bool),
    st.2.1 = st.2.2 →
    (wordFold ign style rules st).2.1 = (wordFold ign style rules st).2.2
  | [], _, h => h
  | r :: rest, st, h => by
    unfold wordFold at *
    rw [List.foldl_cons]
    refine wordFold_flags rest _ ?_
    unfold wordStep
    split
    · rfl
    · exact h

/-- The word-mode keyword loop is the left fold of plain-string substitutions
`wordStep` over the remaining rules, followed by the end-of-loop prints. -/
theorem goKeys_word_run {conf : Configuration} {args : Arguments}
    (hmode : args.mode = .WORD)
    (hbase : conf.hasBase = true → colorAccepted args.style conf.baseColor = true) :
    ∀ (rules : List (Str × Str)) (i : Nat) (line : Str) (sk out : Bool),
    conf.colors.drop i = rules.map (fun r => r.2) →
    (∀ r ∈ rules, (∀ ch ∈ r.1, isLitChar ch = true) ∧
      colorAccepted args.style r.2 = true ∧ '\\' ∉ r.2) →
    goKeys conf args (rules.map (fun r => r.1)) i line sk out
      = .ok (emitTail conf args
          (wordFold args.ignore args.style rules (line, sk, out)))
  | [], i, line, sk, out, _, _ => by
    simp only [List.map_nil, wordFold, List.foldl_nil]
    cases sk with
    | true => simp [goKeys, emitTail]
    | false =>
      cases hb : conf.hasBase with
      | true => simp [goKeys, emitTail, hb, colorize_accepted (hbase hb)]
      | false => simp [goKeys, emitTail, hb]
  | (k, c) :: rest, i, line, sk, out, hdrop, hr => by
    obtain ⟨hlit, hacc, hbs⟩ := hr (k, c) (List.mem_cons_self _ _)
    have hrest : ∀ r ∈ rest, (∀ ch ∈ r.1, isLitChar ch = true) ∧
        colorAccepted args.style r.2 = true ∧ '\\' ∉ r.2 :=
      fun r hx => hr r (List.mem_cons_of_mem _ hx)
    have hki : conf.colors[i]? = some c := by
      have h0 := List.getElem?_drop conf.colors i 0
      rw [hdrop] at h0
      simpa using h0.symm
    have hdrop' : conf.colors.drop (i + 1) = rest.map (fun r => r.2) := by
      have h1 : List.drop 1 (List.drop i conf.colors)
          = rest.map (fun r => r.2) := by
        rw [hdrop]; simp
      rw [List.drop_drop] at h1
      exact h1
    rw [List.map_cons]
    unfold wordFold
    rw [List.foldl_cons]
    cases hmatch : containsCI args.ignore k line with
    | true =>
      have hstep : wordStep args.ignore args.style (line, sk, out) (k, c)
          = (reSubLit args.ignore k (colorizeOk args.style c k) line, true, true) := by
        simp [wordStep, hmatch]
      rw [hstep]
      have hrec := goKeys_word_run hmode hbase rest (i + 1)
        (reSubLit args.ignore k (colorizeOk args.style c k) line) true true
        hdrop' hrest
      unfold wordFold at hrec
      rw [← hrec]
      simp [goKeys, re_compile_literal hlit, hmatch, hki, hmode,
        handle_word_mode_literal hlit hacc hbs]
    | false =>
      have hstep : wordStep args.ignore args.style (line, sk, out) (k, c)
          = (line, sk, out) := by
        simp [wordStep, hmatch]
      rw [hstep]
      have hrec := goKeys_word_run hmode hbase rest (i + 1) line sk out
        hdrop' hrest
      unfold wordFold at hrec
      rw [← hrec]
      simp [goKeys, re_compile_literal hlit, hmatch]

/-- C1 (amended): in word mode the rules are applied in declared order to a
*progressively rewritten* line: each rule whose pattern matches the current
line replaces every occurrence of its pattern with its color prefix, the
rule's keyword text *as configured* (not the matched text), and the reset
suffix; later rules match against the rewritten line, escape sequences
inserted by earlier rules included.  This holds provided no color value
smuggles a backslash into the replacement — otherwise `re.sub`'s
replacement-template processing raises instead of substituting. -/
theorem spec_c1_amended (rules : List (Str × Str)) (base : Option Str)
    (ign : Bool) (style : Style) (line : Str)
    (hr : ∀ r ∈ rules, (∀ ch ∈ r.1, isLitChar ch = true) ∧
      colorAccepted style r.2 = true ∧ '\\' ∉ r.2)
    (hbase : ∀ b, base = some b → colorAccepted style b = true)
    (hmatched : (wordFold ign style rules (line, false, false)).2.2 = true) :
    log_stdout_line (confOfRules rules base) ⟨ign, Mode.WORD, style⟩ line
      = .ok [(wordFold ign style rules (line, false, false)).1] := by
  have hb : (confOfRules rules base).hasBase = true →
      colorAccepted style (confOfRules rules base).baseColor = true := by
    cases base with
    | none => intro h; simp [confOfRules] at h
    | some b => intro _; simpa [confOfRules] using hbase b rfl
  have h := @goKeys_word_run (confOfRules rules base) ⟨ign, Mode.WORD, style⟩
    rfl hb rules 0 line false false (by simp [confOfRules]) hr
  have hkw : (confOfRules rules base).keywords = rules.map (fun r => r.1) := by
    simp [confOfRules]
  unfold log_stdout_line
  rw [hkw, h]
  have hsk := @wordFold_flags ign style rules (line, false, false) rfl
  rw [hmatched] at hsk
  simp [emitTail, hsk, hmatched]

/-- C1 counterexample: with the single case-insensitive word-mode rule
`error→31`, the line `"ERROR"` is rewritten to the colorized *configured*
keyword `error` — the original character case of the matched text is not
preserved, contradicting the claim's prefix + matched text + suffix form. -/
theorem spec_c1_counterexample :
    log_stdout_line ⟨[str "error"], [str "31"], str "0", false⟩
        ⟨true, Mode.WORD, Style.Bit4⟩ (str "ERROR")
      = .ok [str "\x1b[31merror\x1b[0m"] ∧
    str "\x1b[31merror\x1b[0m" ≠ str "\x1b[31mERROR\x1b[0m" :=
  ⟨rfl, by decide⟩

/-- C1 witness: rules `A→31, 0→32` in 4-bit word mode on line `"A"`: the
second rule's pattern `0` matches inside the reset suffix `ESC[0m` inserted
by the first rule and is itself colorized — escape-sequence content *is*
rescanned, as the amended claim states. -/
theorem spec_c1_witness :
    (wordFold false Style.Bit4 [(str "A", str "31"), (str "0", str "32")]
      (str "A", false, false)).2.2 = true ∧
    log_stdout_line
        (confOfRules [(str "A", str "31"), (str "0", str "32")] none)
        ⟨false, Mode.WORD, Style.Bit4⟩ (str "A")
      = .ok [(wordFold false Style.Bit4 [(str "A", str "31"), (str "0", str "32")]
          (str "A", false, false)).1] :=
  ⟨by decide,
    spec_c1_amended [(str "A", str "31"), (str "0", str "32")] none false
      Style.Bit4 (str "A") (by decide) (fun b h => nomatch h) (by decide)⟩

/-- Last-wins recursion principle: prepending an entry makes it the new
default for the "last entry" lookup. -/
theorem getLastD_map_cons {α β : Type} (f : α → β) (e : α) (l : List α) (d : β) :
    (((e :: l).getLast?).map f).getD d = ((l.getLast?).map f).getD (f e) := by
  cases l with
  | nil => simp
  | cons x xs =>
    rw [List.getLast?_cons_cons]
    cases h : (x :: xs).getLast? with
    | none => simp at h
    | some y => simp

/-- What a successful run of the `set_configuration` loop produces, relative
to an arbitrary starting accumulator: the non-`base` entries are appended as
rules in file order, and the fallback color is the *last* `base` entry's
color (the starting value if there is none). -/
theorem setConfLoop_ok {style : Style} {content : List Str} :
    ∀ {conf0 out : Configuration},
    setConfLoop style content conf0 = .ok out →
    out.keywords = conf0.keywords ++ (ruleEntries content).map (fun e => e.1) ∧
    out.colors = conf0.colors ++ (ruleEntries content).map (fun e => e.2) ∧
    out.hasBase = (conf0.hasBase || !(baseEntries content).isEmpty) ∧
    out.baseColor
      = (((baseEntries content).getLast?).map (fun e => e.2)).getD conf0.baseColor := by
  induction content with
  | nil =>
    intro conf0 out h
    simp only [setConfLoop] at h
    cases h
    simp [ruleEntries, baseEntries]
  | cons raw rest ih =>
    intro conf0 out h
    simp only [setConfLoop] at h
    cases hstrip : pyStrip raw with
    | nil =>
      rw [hstrip] at h
      have he : entryOf raw = none := by simp [entryOf, hstrip]
      simp only [ruleEntries, baseEntries, List.filterMap_cons, he]
      exact ih h
    | cons c cs =>
      rw [hstrip] at h
      cases hhash : c == '#' with
      | true =>
        simp only [hhash, if_true] at h
        have he : entryOf raw = none := by simp [entryOf, hstrip, hhash]
        simp only [ruleEntries, baseEntries, List.filterMap_cons, he]
        exact ih h
      | false =>
        simp only [hhash, Bool.false_eq_true, if_false] at h
        rcases hsp : pySplit '=' (c :: cs) with _ | ⟨k, _ | ⟨v, t⟩⟩
        · simp only [hsp] at h
          simp at h
        · simp only [hsp] at h
          simp at h
        · simp only [hsp] at h
          have he : entryOf raw = some (pyStrip k, pyStrip v) := by
            simp [entryOf, hstrip, hhash, hsp]
          cases hchk : checkColor style (pyStrip v) (pyStrip k) with
          | error e =>
            simp only [hchk] at h
            simp at h
          | ok u =>
            cases u
            simp only [hchk] at h
            cases hbq : pyLower (pyStrip k) == str "base" with
            | true =>
              simp only [hbq, if_true] at h
              obtain ⟨h1, h2, h3, h4⟩ := ih h
              have hbe : isBaseEntry (pyStrip k, pyStrip v) = true := hbq
              refine ⟨?_, ?_, ?_, ?_⟩
              · simpa [ruleEntries, List.filterMap_cons, he,
                  List.filter_cons, hbe] using h1
              · simpa [ruleEntries, List.filterMap_cons, he,
                  List.filter_cons, hbe] using h2
              · simp only [baseEntries, List.filterMap_cons, he,
                  List.filter_cons, hbe, if_true]
                simp only [h3]
                simp
              · have hbcons : baseEntries (raw :: rest)
                    = (pyStrip k, pyStrip v) :: baseEntries rest := by
                  simp [baseEntries, List.filterMap_cons, he,
                    List.filter_cons, hbe]
                rw [hbcons, getLastD_map_cons]
                simpa using h4
            | false =>
              simp only [hbq, Bool.false_eq_true, if_false] at h
              obtain ⟨h1, h2, h3, h4⟩ := ih h
              have hbe : isBaseEntry (pyStrip k, pyStrip v) = false := hbq
              refine ⟨?_, ?_, ?_, ?_⟩
              · simp only [ruleEntries, List.filterMap_cons, he,
                  List.filter_cons, hbe, Bool.not_false, if_true]
                simpa [List.append_assoc] using h1
              · simp only [ruleEntries, List.filterMap_cons, he,
                  List.filter_cons, hbe, Bool.not_false, if_true]
                simpa [List.append_assoc] using h2
              · simpa [baseEntries, List.filterMap_cons, he,
                  List.filter_cons, hbe] using h3
              · simpa [baseEntries, List.filterMap_cons, he,
                  List.filter_cons, hbe] using h4

/-- C9: a successful load turns exactly the trimmed keys that equal `base`
case-insensitively into the fallback color (excluded from the rule
sequence, each later declaration overwriting the earlier — last wins), and
appends all other entries, in file order, to the keyword/color rule
sequence. -/
theorem spec_c9 (content : List Str) (style : Style) (conf : Configuration)
    (h : set_configuration (some content) style = .ok conf) :
    conf.keywords = (ruleEntries content).map (fun e => e.1) ∧
    conf.colors = (ruleEntries content).map (fun e => e.2) ∧
    conf.hasBase = !(baseEntries content).isEmpty ∧
    conf.baseColor
      = (((baseEntries content).getLast?).map (fun e => e.2)).getD (str "0") := by
  have h0 : setConfLoop style content ⟨[], [], str "0", false⟩ = .ok conf := h
  obtain ⟨h1, h2, h3, h4⟩ := setConfLoop_ok h0
  exact ⟨by simpa using h1, by simpa using h2, by simpa using h3,
    by simpa using h4⟩

/-- C9 witness: the file `base=1, A=2, BASE = 3` (under the 8-bit style)
yields the single rule `A→2` and fallback color `3` — the second, differently
cased and whitespace-padded `base` declaration wins. -/
theorem spec_c9_witness :
    (⟨[str "A"], [str "2"], str "3", true⟩ : Configuration).keywords
      = (ruleEntries [str "base=1", str "A=2", str "BASE = 3"]).map
          (fun e => e.1) ∧
    (⟨[str "A"], [str "2"], str "3", true⟩ : Configuration).colors
      = (ruleEntries [str "base=1", str "A=2", str "BASE = 3"]).map
          (fun e => e.2) ∧
    (⟨[str "A"], [str "2"], str "3", true⟩ : Configuration).hasBase
      = !(baseEntries [str "base=1", str "A=2", str "BASE = 3"]).isEmpty ∧
    (⟨[str "A"], [str "2"], str "3", true⟩ : Configuration).baseColor
      = (((baseEntries [str "base=1", str "A=2", str "BASE = 3"]).getLast?).map
          (fun e => e.2)).getD (str "0") :=
  spec_c9 [str "base=1", str "A=2", str "BASE = 3"] Style.Bit8
    ⟨[str "A"], [str "2"], str "3", true⟩ rfl

/-- A successful loop run starting from a valid accumulator yields only
accepted colors, index-synchronized keyword/color lists, and an accepted
base color whenever one is set. -/
theorem setConfLoop_valid {style : Style} {content : List Str} :
    ∀ {conf0 out : Configuration},
    setConfLoop style content conf0 = .ok out →
    (∀ c ∈ conf0.colors, colorAccepted style c = true) →
    conf0.keywords.length = conf0.colors.length →
    (conf0.hasBase = true → colorAccepted style conf0.baseColor = true) →
    (∀ c ∈ out.colors, colorAccepted style c = true) ∧
    out.keywords.length = out.colors.length ∧
    (out.hasBase = true → colorAccepted style out.baseColor = true) := by
  induction content with
  | nil =>
    intro conf0 out h ha hl hb
    simp only [setConfLoop] at h
    cases h
    exact ⟨ha, hl, hb⟩
  | cons raw rest ih =>
    intro conf0 out h ha hl hb
    simp only [setConfLoop] at h
    cases hstrip : pyStrip raw with
    | nil =>
      rw [hstrip] at h
      exact ih h ha hl hb
    | cons c cs =>
      rw [hstrip] at h
      cases hhash : c == '#' with
      | true =>
        simp only [hhash, if_true] at h
        exact ih h ha hl hb
      | false =>
        simp only [hhash, Bool.false_eq_true, if_false] at h
        rcases hsp : pySplit '=' (c :: cs) with _ | ⟨k, _ | ⟨v, t⟩⟩
        · simp only [hsp] at h
          simp at h
        · simp only [hsp] at h
          simp at h
        · simp only [hsp] at h
          cases hchk : checkColor style (pyStrip v) (pyStrip k) with
          | error e =>
            simp only [hchk] at h
            simp at h
          | ok u =>
            cases u
            simp only [hchk] at h
            have hacc : colorAccepted style (pyStrip v) = true :=
              checkColor_ok.mp hchk
            cases hbq : pyLower (pyStrip k) == str "base" with
            | true =>
              simp only [hbq, if_true] at h
              refine ih h (by simpa using ha) (by simpa using hl) ?_
              intro _
              simpa using hacc
            | false =>
              simp only [hbq, Bool.false_eq_true, if_false] at h
              refine ih h ?_ ?_ (by simpa using hb)
              · intro x hx
                rcases (by simpa using hx : x ∈ conf0.colors ∨ x = pyStrip v)
                  with h1 | h1
                · exact ha x h1
                · subst h1
                  exact hacc
              · simpa using hl

/-- If every keyword compiles, every color in sight is accepted and the
color list is long enough, the keyword loop cannot raise. -/
theorem goKeys_ok {conf : Configuration} {args : Arguments} :
    ∀ (ks : List Str) (i : Nat) (line : Str) (sk out : Bool),
    (∀ k ∈ ks, isOkB (re_compile k) = true) →
    i + ks.length ≤ conf.colors.length →
    (∀ c ∈ conf.colors, colorAccepted args.style c = true) →
    (∀ c ∈ conf.colors, '\\' ∉ c) →
    (conf.hasBase = true → colorAccepted args.style conf.baseColor = true) →
    isOkB (goKeys conf args ks i line sk out) = true
  | [], i, line, sk, out, _, _, _, _, hbase => by
    cases sk with
    | true => simp [goKeys, isOkB]
    | false =>
      cases hb : conf.hasBase with
      | true => simp [goKeys, hb, colorize_accepted (hbase hb), isOkB]
      | false => simp [goKeys, hb, isOkB]
  | k :: ks, i, line, sk, out, hcomp, hlen, hcols, hnb, hbase => by
    have hk := hcomp k (List.mem_cons_self _ _)
    cases hck : re_compile k with
    | error e =>
      rw [hck] at hk
      simp [isOkB] at hk
    | ok p =>
      cases hm : containsCI args.ignore p line with
      | false =>
        rw [goKeys_cons_nomatch hck hm]
        refine goKeys_ok ks (i + 1) line sk out
          (fun x hx => hcomp x (List.mem_cons_of_mem _ hx)) ?_ hcols hnb hbase
        simp only [List.length_cons] at hlen
        omega
      | true =>
        have hi : i < conf.colors.length := by
          simp only [List.length_cons] at hlen
          omega
        have hc : conf.colors[i]? = some conf.colors[i] :=
          List.getElem?_eq_getElem hi
        have hca : colorAccepted args.style conf.colors[i] = true :=
          hcols _ (List.getElem?_mem hc)
        cases hmode : args.mode with
        | LINE =>
          simp [goKeys, hck, hm, hc, hmode, colorize_accepted hca, isOkB]
        | WORD =>
          have hknb : '\\' ∉ k := re_compile_ok_no_backslash hck
          have hcnb : '\\' ∉ conf.colors[i] := hnb _ (List.getElem?_mem hc)
          have htmpl := @parseTemplate_literal
            (colorizeOk args.style conf.colors[i] k) (reGroupCount k)
            (backslash_not_in_colorizeOk hcnb hknb)
          have hw : handle_word_mode line k conf.colors[i] args.style args.ignore
              = .ok (reSubLit args.ignore p
                  (colorizeOk args.style conf.colors[i] k) line) := by
            unfold handle_word_mode
            simp only [colorize_accepted hca, hck, htmpl]
          have hrec := goKeys_ok ks (i + 1)
            (reSubLit args.ignore p (colorizeOk args.style conf.colors[i] k) line)
            true true (fun x hx => hcomp x (List.mem_cons_of_mem _ hx))
            (by simp only [List.length_cons] at hlen; omega) hcols hnb hbase
          simpa [goKeys, hck, hm, hc, hmode, hw] using hrec

/-- C10 counterexample: the configuration `K=\1,2,3` loads under the 24-bit
style (the loader counts commas only), the keyword `K` is a perfectly valid
regular expression, and yet word-mode classification of a line containing `K`
raises — not a pattern-compilation error, but `re.sub`'s
invalid-group-reference error from the backslash the color smuggled into the
replacement.  This refutes the claim's assertion that a configuration whose
keywords are all valid regular expressions never raises during
classification. -/
theorem spec_c10_counterexample :
    set_configuration (some [str "K=\\1,2,3"]) Style.Bit24
      = .ok ⟨[str "K"], [str "\\1,2,3"], str "0", false⟩ ∧
    re_compile (str "K") = .ok (str "K") ∧
    log_stdout_line ⟨[str "K"], [str "\\1,2,3"], str "0", false⟩
        ⟨false, Mode.WORD, Style.Bit24⟩ (str "K")
      = .error (.regexError (str "invalid group reference")) :=
  ⟨rfl, rfl, rfl⟩

/-- C10 (amended): keyword patterns are not validated at load time but are
compiled as regular expressions on every stdout line: the configuration `(=5`
(an unbalanced-parenthesis keyword) loads successfully, yet classifying *any*
line under it raises the regex compilation error.  Classification under a
loaded configuration whose keywords all compile never raises a
pattern-compilation error — and never raises at all provided additionally
that no color value contains a backslash (an unvalidated 24-bit color
component such as `\1,2,3` otherwise reaches `re.sub`'s replacement template
in word mode and raises there despite every keyword being valid). -/
theorem spec_c10_amended :
    (set_configuration (some [str "(=5"]) Style.Bit8
      = .ok ⟨[str "("], [str "5"], str "0", false⟩) ∧
    (∀ (args : Arguments) (line : Str),
      log_stdout_line ⟨[str "("], [str "5"], str "0", false⟩ args line
        = .error (.regexError (str "missing ), unterminated subpattern"))) ∧
    (∀ (content : List Str) (args : Arguments) (conf : Configuration),
      set_configuration (some content) args.style = .ok conf →
      (∀ k ∈ conf.keywords, isOkB (re_compile k) = true) →
      (∀ c ∈ conf.colors, '\\' ∉ c) →
      ∀ line, isOkB (log_stdout_line conf args line) = true) := by
  refine ⟨rfl, fun args line => rfl, ?_⟩
  intro content args conf h hcomp hnb line
  have h0 : setConfLoop args.style content ⟨[], [], str "0", false⟩ = .ok conf := h
  obtain ⟨hacc, hlen, hbase⟩ := setConfLoop_valid h0
    (by intro c hc; simp at hc) (by simp) (by intro hx; simp at hx)
  exact goKeys_ok conf.keywords 0 line false false hcomp
    (by omega) hacc hnb hbase

/-- C10 witness: classification succeeds on a loaded configuration with
valid keywords and backslash-free colors, and raises on the loadable
configuration whose keyword is the invalid pattern `(`. -/
theorem spec_c10_witness :
    isOkB (log_stdout_line ⟨[str "ERROR"], [str "160"], str "0", false⟩
        ⟨false, Mode.LINE, Style.Bit8⟩ (str "ERROR here\n")) = true ∧
    log_stdout_line ⟨[str "("], [str "5"], str "0", false⟩
        ⟨false, Mode.LINE, Style.Bit8⟩ (str "anything")
      = .error (.regexError (str "missing ), unterminated subpattern")) :=
  ⟨spec_c10_amended.2.2 [str "ERROR=160"] ⟨false, Mode.LINE, Style.Bit8⟩
      ⟨[str "ERROR"], [str "160"], str "0", false⟩ rfl
      (by
        intro k hk
        simp only [List.mem_singleton] at hk
        subst hk
        rfl)
      (by
        intro c hc
        simp only [List.mem_singleton] at hc
        subst hc
        decide)
      (str "ERROR here\n"),
    spec_c10_amended.2.1 ⟨false, Mode.LINE, Style.Bit8⟩ (str "anything")⟩

/-- Splitting a string that does not contain the separator yields the string
itself as the only part. -/
theorem pySplit_no_sep {sep : Char} : ∀ {s : Str}, sep ∉ s → pySplit sep s = [s]
  | [], _ => rfl
  | c :: cs, h => by
    have hc : (c == sep) = false := by
      simp only [beq_eq_false_iff_ne, ne_eq]
      rintro rfl
      exact h (List.mem_cons_self _ _)
    have hrest := @pySplit_no_sep sep cs (fun hm => h (List.mem_cons_of_mem _ hm))
    simp [pySplit, hc, hrest]

/-- Splitting `a ++ sep :: b` when `a` is separator-free peels off `a` as the
first part. -/
theorem pySplit_sep_append {sep : Char} :
    ∀ {a : Str} (b : Str), sep ∉ a →
    pySplit sep (a ++ sep :: b) = a :: pySplit sep b
  | [], b, _ => by simp [pySplit]
  | c :: cs, b, h => by
    have hc : (c == sep) = false := by
      simp only [beq_eq_false_iff_ne, ne_eq]
      rintro rfl
      exact h (List.mem_cons_self _ _)
    have hrest := @pySplit_sep_append sep cs b
      (fun hm => h (List.mem_cons_of_mem _ hm))
    simp [pySplit, hc, hrest]

/-- C4 (amended): the loader splits a configuration line on *every* `=`; the
key is the text before the first `=` and the color value is the text between
the first and the second `=` — everything after a second `=` (`rest`, which
may itself contain more `=`) is silently discarded instead of being kept in
the value. -/
theorem spec_c4_amended (line k v rest : Str) (style : Style)
    (hstrip : pyStrip line = k ++ '=' :: (v ++ '=' :: rest))
    (hk : '=' ∉ k) (hv : '=' ∉ v) (hk0 : k ≠ [])
    (hhash : k.head? ≠ some '#')
    (hnb : (pyLower (pyStrip k) == str "base") = false)
    (hacc : colorAccepted style (pyStrip v) = true) :
    set_configuration (some [line]) style
      = .ok ⟨[pyStrip k], [pyStrip v], str "0", false⟩ := by
  obtain ⟨c, k', rfl⟩ : ∃ c k', k = c :: k' := by
    cases k with
    | nil => exact absurd rfl hk0
    | cons c k' => exact ⟨c, k', rfl⟩
  have hc : (c == '#') = false := by
    simp only [List.head?] at hhash
    simp only [beq_eq_false_iff_ne, ne_eq]
    intro hcc
    exact hhash (by rw [hcc])
  have hsp1 : pySplit '=' ((c :: k') ++ '=' :: (v ++ '=' :: rest))
      = (c :: k') :: pySplit '=' (v ++ '=' :: rest) :=
    pySplit_sep_append _ hk
  have hsp2 : pySplit '=' (v ++ '=' :: rest) = v :: pySplit '=' rest :=
    pySplit_sep_append _ hv
  have hchk : checkColor style (pyStrip v) (pyStrip (c :: k')) = .ok () :=
    checkColor_ok.mpr hacc
  show setConfLoop style [line] ⟨[], [], str "0", false⟩ = _
  simp only [setConfLoop]
  rw [hstrip]
  simp only [List.cons_append] at hsp1 ⊢
  simp only [hc, Bool.false_eq_true, if_false, hsp1, hsp2, hchk, hnb,
    setConfLoop]
  simp

/-- C4 counterexample: the line `k=1=2` loads (under the 8-bit style) with
color value `1`, not the intact remainder `1=2` the claim promises. -/
theorem spec_c4_counterexample :
    set_configuration (some [str "k=1=2"]) Style.Bit8
      = .ok ⟨[str "k"], [str "1"], str "0", false⟩ ∧
    (str "1" : Str) ≠ str "1=2" :=
  ⟨rfl, by decide⟩

/-- C4 witness: instantiating the amended claim on the line `k=1=2`. -/
theorem spec_c4_witness :
    set_configuration (some [str "k=1=2"]) Style.Bit8
      = .ok ⟨[pyStrip (str "k")], [pyStrip (str "1")], str "0", false⟩ :=
  spec_c4_amended (str "k=1=2") (str "k") (str "1") (str "2") Style.Bit8
    (by decide) (by decide) (by decide) (by decide) (by decide) (by decide)
    (by decide)

/-- C5 (amended): loading a single-entry configuration succeeds exactly when
the color value passes the style's validation — for 24-bit that validation
only counts the comma-separated parts (three non-integer parts are accepted),
while for 4-bit and 8-bit the value must parse as an integer. -/
theorem spec_c5_amended (line k v : Str) (style : Style)
    (hstrip : pyStrip line = k ++ '=' :: v)
    (hk : '=' ∉ k) (hv : '=' ∉ v) (hk0 : k ≠ [])
    (hhash : k.head? ≠ some '#') :
    isOkB (set_configuration (some [line]) style)
      = colorAccepted style (pyStrip v) := by
  obtain ⟨c, k', rfl⟩ : ∃ c k', k = c :: k' := by
    cases k with
    | nil => exact absurd rfl hk0
    | cons c k' => exact ⟨c, k', rfl⟩
  have hc : (c == '#') = false := by
    simp only [List.head?] at hhash
    simp only [beq_eq_false_iff_ne, ne_eq]
    intro hcc
    exact hhash (by rw [hcc])
  have hsp1 : pySplit '=' ((c :: k') ++ '=' :: v)
      = (c :: k') :: pySplit '=' v :=
    pySplit_sep_append _ hk
  have hsp2 : pySplit '=' v = [v] := pySplit_no_sep hv
  show isOkB (setConfLoop style [line] ⟨[], [], str "0", false⟩) = _
  simp only [setConfLoop]
  rw [hstrip]
  simp only [List.cons_append] at hsp1 ⊢
  simp only [hc, Bool.false_eq_true, if_false, hsp1, hsp2]
  cases hacc : colorAccepted style (pyStrip v) with
  | true =>
    have hchk : checkColor style (pyStrip v) (pyStrip (c :: k')) = .ok () :=
      checkColor_ok.mpr hacc
    simp only [hchk]
    cases hbq : pyLower (pyStrip (c :: k')) == str "base" with
    | true => simp [hbq, setConfLoop, isOkB]
    | false => simp [hbq, setConfLoop, isOkB]
  | false =>
    cases hchk : checkColor style (pyStrip v) (pyStrip (c :: k')) with
    | ok u =>
      cases u
      rw [checkColor_ok.mp hchk] at hacc
      cases hacc
    | error e => simp [hchk, isOkB]

/-- C5 counterexample: under the 24-bit style, the entry `K=a,b,c` — three
comma-separated components none of which is an integer — loads successfully,
although the claim says it must be rejected as an invalid color. -/
theorem spec_c5_counterexample :
    set_configuration (some [str "K=a,b,c"]) Style.Bit24
      = .ok ⟨[str "K"], [str "a,b,c"], str "0", false⟩ ∧
    pyIntParses (str "a") = false ∧
    pyIntParses (str "b") = false ∧
    pyIntParses (str "c") = false :=
  ⟨rfl, by decide, by decide, by decide⟩

/-- C5 witness: instantiating the amended claim on `K=ab` under the 8-bit
style — a non-integer value, so the load fails. -/
theorem spec_c5_witness :
    isOkB (set_configuration (some [str "K=ab"]) Style.Bit8)
      = colorAccepted Style.Bit8 (pyStrip (str "ab")) :=
  spec_c5_amended (str "K=ab") (str "K") (str "ab") Style.Bit8
    (by decide) (by decide) (by decide) (by decide) (by decide)

/-- The happy-path shape of a `main` run: config loaded, stdout drained to
end-of-stream without a raised exception, then stderr drained, then the wait;
everything derived from stderr is printed strictly after everything derived
from stdout, and the child's exit status influences nothing. -/
theorem pyMain_run_eq (file : Option (List Str)) (args : Arguments)
    (childOut childErr : List Str) (childExit : Int) (conf : Configuration)
    (hconf : set_configuration file args.style = .ok conf)
    (hok : (log_stdout_run childOut conf args).2 = none) :
    pyMain file args childOut childErr childExit
      = { printed := (log_stdout_run childOut conf args).1
            ++ log_stderr_run childErr args,
          spawned := true, waited := true, result := none, exitCode := 0 } := by
  unfold pyMain
  rw [hconf]
  rcases hrun : log_stdout_run childOut conf args with ⟨outs, err⟩
  rw [hrun] at hok
  cases err with
  | some e => simp at hok
  | none => simp [hrun]

/-- C2: the supervisor does *not* drain the two streams concurrently — it
reads stdout to end-of-stream first and only then reads stderr: in every run
the printed output is the full stdout rendering followed by the full stderr
rendering, for any stderr content whatsoever.  (This sequential structure is
what makes the >64KB-to-stderr-first child a deadlock, since the blocked
child never closes its stdout pipe.) -/
theorem spec_c2_sequential (file : Option (List Str)) (args : Arguments)
    (childOut childErr : List Str) (childExit : Int) (conf : Configuration)
    (hconf : set_configuration file args.style = .ok conf)
    (hok : (log_stdout_run childOut conf args).2 = none) :
    (pyMain file args childOut childErr childExit).printed
      = (log_stdout_run childOut conf args).1 ++ log_stderr_run childErr args := by
  rw [pyMain_run_eq file args childOut childErr childExit conf hconf hok]

/-- C2 witness: a concrete run in which the single stderr line is rendered
after both stdout lines. -/
theorem spec_c2_witness :
    (pyMain (some [str "A=1"]) ⟨false, Mode.LINE, Style.Bit8⟩
        [str "A yes\n", str "no\n"] [str "oops\n"] 0).printed
      = (log_stdout_run [str "A yes\n", str "no\n"]
          ⟨[str "A"], [str "1"], str "0", false⟩
          ⟨false, Mode.LINE, Style.Bit8⟩).1
        ++ log_stderr_run [str "oops\n"] ⟨false, Mode.LINE, Style.Bit8⟩ :=
  spec_c2_sequential (some [str "A=1"]) ⟨false, Mode.LINE, Style.Bit8⟩
    [str "A yes\n", str "no\n"] [str "oops\n"] 0
    ⟨[str "A"], [str "1"], str "0", false⟩ rfl rfl

/-- C3 (amended): when the child is spawned and terminates on its own, the
supervisor does wait for the operating-system exit notification, but then
*discards* the child's exit status: `main` returns no value, the wrapper's
own exit code is 0, and the entire observable run is independent of the
child's exit status. -/
theorem spec_c3_amended (file : Option (List Str)) (args : Arguments)
    (childOut childErr : List Str) (conf : Configuration) (e1 e2 : Int)
    (hconf : set_configuration file args.style = .ok conf)
    (hok : (log_stdout_run childOut conf args).2 = none) :
    (pyMain file args childOut childErr e1).waited = true ∧
    (pyMain file args childOut childErr e1).result = none ∧
    (pyMain file args childOut childErr e1).exitCode = 0 ∧
    pyMain file args childOut childErr e1 = pyMain file args childOut childErr e2 := by
  rw [pyMain_run_eq file args childOut childErr e1 conf hconf hok,
    pyMain_run_eq file args childOut childErr e2 conf hconf hok]
  exact ⟨rfl, rfl, rfl, rfl⟩

/-- C3 counterexample: a run whose child exits with status 3: the supervisor
waits, but the wrapper's result is `None` and its exit code 0 — the child's
exit status is not propagated as the claim states. -/
theorem spec_c3_counterexample :
    (pyMain (some [str "A=1"]) ⟨false, Mode.LINE, Style.Bit8⟩ [] [] 3).waited
      = true ∧
    (pyMain (some [str "A=1"]) ⟨false, Mode.LINE, Style.Bit8⟩ [] [] 3).result
      ≠ some 3 ∧
    (pyMain (some [str "A=1"]) ⟨false, Mode.LINE, Style.Bit8⟩ [] [] 3).exitCode
      ≠ 3 :=
  ⟨rfl, by decide, by decide⟩

/-- C3 witness: instantiating the amended claim on a concrete run with child
exit statuses 3 and 7. -/
theorem spec_c3_witness :
    (pyMain (some [str "A=1"]) ⟨false, Mode.LINE, Style.Bit8⟩ [str "x\n"]
        [str "y\n"] 3).waited = true ∧
    (pyMain (some [str "A=1"]) ⟨false, Mode.LINE, Style.Bit8⟩ [str "x\n"]
        [str "y\n"] 3).result = none ∧
    (pyMain (some [str "A=1"]) ⟨false, Mode.LINE, Style.Bit8⟩ [str "x\n"]
        [str "y\n"] 3).exitCode = 0 ∧
    pyMain (some [str "A=1"]) ⟨false, Mode.LINE, Style.Bit8⟩ [str "x\n"]
        [str "y\n"] 3
      = pyMain (some [str "A=1"]) ⟨false, Mode.LINE, Style.Bit8⟩ [str "x\n"]
        [str "y\n"] 7 :=
  spec_c3_amended (some [str "A=1"]) ⟨false, Mode.LINE, Style.Bit8⟩ [str "x\n"]
    [str "y\n"] ⟨[str "A"], [str "1"], str "0", false⟩ 3 7 rfl rfl

/-- C8: when the configuration fails to load — unreadable file, malformed
line or invalid color — the error message is printed exactly once, the run
ends with exit code 1, and no child process is ever spawned. -/
theorem spec_c8 (file : Option (List Str)) (args : Arguments)
    (childOut childErr : List Str) (childExit : Int) (e : PyErr)
    (h : set_configuration file args.style = .error e) :
    pyMain file args childOut childErr childExit
      = { printed := [errText e], spawned := false, waited := false,
          result := none, exitCode := 1 } := by
  simp [pyMain, h]

/-- C8 witness: an unreadable configuration file aborts the run with a single
error report before any spawn. -/
theorem spec_c8_witness :
    pyMain none ⟨false, Mode.LINE, Style.Bit8⟩ [str "x"] [str "y"] 0
      = { printed := [errText (.configError (str "No such file or directory"))],
          spawned := false, waited := false, result := none, exitCode := 1 } :=
  spec_c8 none ⟨false, Mode.LINE, Style.Bit8⟩ [str "x"] [str "y"] 0
    (.configError (str "No such file or directory")) rfl

end Harness
